import Mathlib

/-!
A shallow embedding of the integer-point sampling core (`isl_sample.c`) of the
isl library, together with theorems checking the specification's claims about
it.  Pure routines of the source file are translated as executable Lean
functions.  External collaborators (the tableau engine, matrix primitives such
as Hermite normal form, the simplifier, the alternative ILP backend) are
modelled as oracle parameters (`TabOps`, `Ext`); leaf operations whose
behaviour the specification pins down exactly are executable definitions
marked `Modelled from the spec`.  The C code mutates objects in place; the
embedding threads the corresponding state explicitly.  The iterative search
loop and the recursive dispatcher run on explicit fuel; fuel exhaustion is
mapped to the error outcome.
-/

namespace IslSample

/-- isl_vec: element 0 is the denominator, elements 1.. are the coordinates.
A zero-length vector is the distinguished empty-set witness. -/
structure IslVec where
  el : List Int
deriving DecidableEq

/-- isl_mat as a dense list of rows. -/
abbrev IslMat := List (List Int)

/-- The zero-length vector signalling that the set has no integer point. -/
def vec0 : IslVec := ⟨[]⟩

/-- isl_seq_inner_product: the sum of the products of the first n entries of
the two sequences (reads past the end of a list give 0, mirroring the fact
that well-formed calls never read past the end). -/
def seqInner (a b : List Int) (n : Nat) : Int :=
  ((List.range n).map (fun k => a.getD k 0 * b.getD k 0)).sum

/-- isl_seq_first_non_zero on a list: index of the first non-zero entry. -/
def firstNonZero (l : List Int) : Option Nat :=
  l.findIdx? (fun x => x != 0)

/-- Modelled from the spec: ceiling division (isl_int_cdiv_q), rounding the
quotient toward positive infinity. -/
def cdivQ (a b : Int) : Int := -(Int.fdiv (-a) b)

/-- Number of columns of a matrix (all rows of an isl_mat share one length). -/
def colCount (m : IslMat) : Nat := (m.headD []).length

/-- Row i of a matrix (isl_mat row access). -/
def getRow (m : IslMat) (i : Nat) : List Int := m.getD i []

/-- Modelled from the spec: isl_mat_identity, the n by n identity matrix. -/
def isl_mat_identity (n : Nat) : IslMat :=
  (List.range n).map (fun i => (List.range n).map (fun j => if j = i then 1 else 0))

/-- Modelled from the spec: isl_mat_lin_to_aff, the linear-to-affine extension
of a matrix (prepend the homogenizing row and column). -/
def isl_mat_lin_to_aff (m : IslMat) : IslMat :=
  (1 :: List.replicate (colCount m) 0) :: m.map (fun r => 0 :: r)

/-- Modelled from the spec: isl_mat_drop_cols, removing n columns starting at
column first. -/
def isl_mat_drop_cols (m : IslMat) (first n : Nat) : IslMat :=
  m.map (fun r => r.take first ++ r.drop (first + n))

/-- Modelled from the spec: isl_mat_vec_product.  The dimension assertion of
the library routine (column count equals vector size) is modelled by the
none outcome. -/
def isl_mat_vec_product (m : IslMat) (v : IslVec) : Option IslVec :=
  if m.all (fun r => r.length = v.el.length) then
    some ⟨m.map (fun r => seqInner r v.el v.el.length)⟩
  else none

/-- Modelled from the spec: isl_vec_ceil divides every coordinate by the
denominator in slot 0, rounding up, and sets the denominator to 1. -/
def isl_vec_ceil (v : IslVec) : IslVec :=
  match v.el with
  | [] => ⟨[]⟩
  | d :: rest => ⟨1 :: rest.map (fun a => cdivQ a d)⟩

/-- Modelled from the spec: isl_seq_elim, the elimination primitive of the
sequence layer: dst is combined with src so that entry pos becomes zero. -/
def seqElim (dst src : List Int) (pos : Nat) : List Int :=
  if dst.getD pos 0 = 0 then dst
  else
    let g : Int := Int.gcd (src.getD pos 0) (dst.getD pos 0)
    let a := src.getD pos 0 / g
    let b := dst.getD pos 0 / g
    (List.range dst.length).map (fun k => a * dst.getD k 0 - b * src.getD k 0)

/-- isl_basic_set: a conjunction of equalities and inequalities.  Every
constraint row is the constant followed by the coefficients.  The EMPTY and
NO_IMPLICIT flags and the optional cached sample are carried explicitly;
reference counting and copy-on-write are invisible to a pure embedding. -/
structure IslBasicSet where
  nparam : Nat
  dim : Nat
  n_div : Nat
  eq : List (List Int)
  ineq : List (List Int)
  empty_flag : Bool
  no_implicit : Bool
  sample : Option IslVec
deriving DecidableEq

/-- isl_basic_set_total_dim. -/
def total_dim (b : IslBasicSet) : Nat := b.nparam + b.dim + b.n_div

/-- isl_basic_set_fast_is_empty: reads the EMPTY flag only. -/
def fast_is_empty (b : IslBasicSet) : Bool := b.empty_flag

/-- The semantics of a basic set: an integer point x satisfies every equality
with value zero and every inequality with a non-negative value. -/
def satisfiesBset (b : IslBasicSet) (x : List Int) : Prop :=
  (∀ e ∈ b.eq, seqInner e (1 :: x) (1 + total_dim b) = 0) ∧
  (∀ i ∈ b.ineq, 0 ≤ seqInner i (1 :: x) (1 + total_dim b))

/-- empty_sample: release the set and return the zero-length vector. -/
def empty_sample (_b : IslBasicSet) : IslVec := vec0

/-- zero_sample: the zero point of the same dimension as the set, with
denominator one.  Constructs a zero-dimensional point for a zero-dimensional
set. -/
def zero_sample (b : IslBasicSet) : IslVec :=
  ⟨1 :: List.replicate (total_dim b) 0⟩

/-- isl_lp_result codes handed back by the tableau engine. -/
inductive LpRes
  | ok
  | empty
  | unbounded
  | error
deriving DecidableEq

/-- The basis-reduction policy (ctx->opt->gbr). -/
inductive GbrMode
  | never
  | once
  | always
deriving DecidableEq

/-- The ILP backend selector (ctx->opt->ilp_solver). -/
inductive IlpMode
  | pip
  | gbr
deriving DecidableEq

/-- The mutable option block of the ambient isl_ctx that the sampler reads
and writes. -/
structure Ctx where
  gbr : GbrMode
  gbr_only_first : Bool
  ilp_solver : IlpMode
deriving DecidableEq

/-- Bookkeeping of one tableau constraint (is_row flag and column index), as
read by tab_equalities. -/
structure TabCon where
  is_row : Bool
  index : Int
deriving DecidableEq

/-- The slice of the isl_tab state that isl_sample.c reads or writes.  The
pivoting data itself stays behind the TabOps oracle; basis, the counters and
the tracked shadow basic set are manipulated directly by the sampler.
An empty basis list models a NULL basis pointer. -/
structure TabState where
  emptyF : Bool
  n_var : Nat
  n_col : Nat
  n_dead : Nat
  con : List TabCon
  tracked : Option IslBasicSet
  basis : IslMat
  n_unbounded : Nat
  n_zero : Nat
deriving DecidableEq

/-- Number of equality directions of a tableau,
tab->n_var - tab->n_col + tab->n_dead, computed as an integer. -/
def tabNEq (tab : TabState) : Int :=
  (tab.n_var : Int) - (tab.n_col : Int) + (tab.n_dead : Int)

/-- The external operations of the tableau engine and the matrix layer that
the sampler consumes; each is an oracle standing for the library routine. -/
structure TabOps where
  tab_min : TabState → List Int → LpRes × Int × TabState
  sample_is_integer : TabState → Bool
  get_sample_value : TabState → Option IslVec
  add_valid_eq : TabState → List Int → TabState
  snap : TabState → Nat
  rollback : TabState → Nat → Option TabState
  compute_reduced_basis : Ctx → TabState → Option TabState
  extend_cons : TabState → Nat → Option TabState
  mat_vec_inverse_product : IslMat → IslVec → Option IslVec
  left_hermite : IslMat → Nat → Option (IslMat × IslMat × IslMat)
  tab_from_basic_set : IslBasicSet → Option TabState
  track_bset : TabState → IslBasicSet → Option TabState
  detect_implicit_equalities : TabState → Option TabState

/-- tab_equalities: the equalities of the tableau in constraint form, read
from the tracked shadow basic set.  Constraints stored as dead columns are
the (possibly implicit) equalities. -/
def tab_equalities (tab : TabState) : Option IslMat :=
  match tab.tracked with
  | none => none
  | some bset =>
    let n_eq := tabNEq tab
    if tab.emptyF = true ∨ n_eq = 0 then some []
    else if n_eq = (tab.n_var : Int) then some (isl_mat_identity tab.n_var)
    else
      let rows := (List.range tab.con.length).filterMap (fun i =>
        let c := tab.con.getD i ⟨true, 0⟩
        if c.is_row then none
        else if 0 ≤ c.index ∧ (tab.n_dead : Int) ≤ c.index then none
        else if i < bset.eq.length then
          some (((bset.eq.getD i []).drop 1).take tab.n_var)
        else
          some (((bset.ineq.getD (i - bset.eq.length) []).drop 1).take tab.n_var))
      if (rows.length : Int) = n_eq then some rows else none

/-- initial_basis: identity for full-dimensional or zero-dimensional (or
empty) tableaus, otherwise a left-Hermite basis whose first directions are
aligned with the equalities. -/
def initial_basis (ops : TabOps) (tab : TabState) : Option IslMat :=
  let n_eq := tabNEq tab
  if tab.emptyF = true ∨ n_eq = 0 ∨ n_eq = (tab.n_var : Int) then
    some (isl_mat_identity (1 + tab.n_var))
  else
    match tab_equalities tab with
    | none => none
    | some eqm =>
      match ops.left_hermite eqm 0 with
      | none => none
      | some (_, _, q) => some (isl_mat_lin_to_aff q)

/-- isl_seq_neg on the coefficient part of a basis row: negate the dim
entries that follow the constant slot. -/
def negSeg (r : List Int) (dim : Nat) : List Int :=
  r.take 1 ++ ((r.drop 1).take dim).map (fun x => -x) ++ r.drop (1 + dim)

/-- The mutable state of the depth-first search loop of isl_tab_sample:
the ambient option block, the tableau, the current level, the init and
reduced flags, and the per-level min, max and snapshot arrays. -/
structure LoopSt where
  ctx : Ctx
  tab : TabState
  level : Nat
  init : Bool
  reduced : Bool
  minA : List Int
  maxA : List Int
  snaps : List Nat
deriving DecidableEq

/-- Outcome of one iteration of the search loop. -/
inductive StepRes
  | fail (ctx : Ctx)
  | found (st : LoopSt)
  | nopoint (ctx : Ctx)
  | next (st : LoopSt)
deriving DecidableEq

/-- The tail of the loop body shared by the init and non-init paths:
backtrack when the range is exhausted or the subproblem is empty, otherwise
pin the current candidate as an equality and descend or stop. -/
def tabAdvance (ops : TabOps) (dim : Nat) (st : LoopSt) (emptyB : Bool) : StepRes :=
  if emptyB = true ∨ st.maxA.getD st.level 0 < st.minA.getD st.level 0 then
    if st.level = 0 then StepRes.nopoint st.ctx
    else
      match ops.rollback st.tab (st.snaps.getD (st.level - 1) 0) with
      | none => StepRes.fail st.ctx
      | some tab2 =>
        StepRes.next { st with tab := tab2, level := st.level - 1, init := false }
  else
    let m := st.minA.getD st.level 0
    let row1 := (getRow st.tab.basis (1 + st.level)).set 0 (-m)
    let tabA := { st.tab with basis := st.tab.basis.set (1 + st.level) row1 }
    let tabB := ops.add_valid_eq tabA row1
    let tabC := { tabB with
      basis := tabB.basis.set (1 + st.level) ((getRow tabB.basis (1 + st.level)).set 0 0) }
    -- The source compares level + n_unbounded < dim - 1 in unsigned
    -- arithmetic; dim is at least one whenever the loop runs, because the
    -- all-directions-unbounded case (which covers dim = 0) exits earlier.
    if st.level + tabC.n_unbounded < dim - 1 then
      StepRes.next { st with tab := tabC, level := st.level + 1, init := true }
    else
      StepRes.found { st with tab := tabC }

/-- The init path of the loop body: minimize along the current basis row,
minimize the negated row to obtain the maximum, stop early on an integer
sample, fire basis reduction at most once per level, otherwise snapshot and
fall through to the shared tail. -/
def tabStepInit (ops : TabOps) (dim : Nat) (st : LoopSt) : StepRes :=
  let r1 := ops.tab_min st.tab (getRow st.tab.basis (1 + st.level))
  if r1.1 = LpRes.unbounded ∨ r1.1 = LpRes.error then StepRes.fail st.ctx
  else
    let tab1 := r1.2.2
    let minA1 := st.minA.set st.level r1.2.1
    if r1.1 ≠ LpRes.empty ∧ ops.sample_is_integer tab1 = true then
      StepRes.found { st with tab := tab1, minA := minA1 }
    else
      let tab2 := { tab1 with
        basis := tab1.basis.set (1 + st.level) (negSeg (getRow tab1.basis (1 + st.level)) dim) }
      let r2 := ops.tab_min tab2 (getRow tab2.basis (1 + st.level))
      let tab3 := { r2.2.2 with
        basis := (r2.2.2).basis.set (1 + st.level)
                   (negSeg (getRow (r2.2.2).basis (1 + st.level)) dim) }
      let maxA1 := st.maxA.set st.level (-(r2.2.1))
      if r2.1 = LpRes.unbounded ∨ r2.1 = LpRes.error then StepRes.fail st.ctx
      else
        let emptyP : Bool := decide (r1.1 = LpRes.empty) || decide (r2.1 = LpRes.empty)
        if emptyP = false ∧ ops.sample_is_integer tab3 = true then
          StepRes.found { st with tab := tab3, minA := minA1, maxA := maxA1 }
        else if emptyP = false ∧ st.reduced = false ∧ st.ctx.gbr ≠ GbrMode.never ∧
                minA1.getD st.level 0 < maxA1.getD st.level 0 then
          let ctx1 := if st.ctx.gbr = GbrMode.once then
                        { st.ctx with gbr := GbrMode.never } else st.ctx
          let tab5 := { tab3 with n_zero := st.level }
          let ctx2 := { ctx1 with gbr_only_first := decide (ctx1.gbr = GbrMode.always) }
          match ops.compute_reduced_basis ctx2 tab5 with
          | none => StepRes.fail { ctx2 with gbr_only_first := ctx1.gbr_only_first }
          | some tab6 =>
            let ctx3 := { ctx2 with gbr_only_first := ctx1.gbr_only_first }
            if tab6.basis = [] then StepRes.fail ctx3
            else
              StepRes.next
                { st with
                  ctx := ctx3
                  tab := tab6
                  minA := minA1
                  maxA := maxA1
                  reduced := true }
        else
          tabAdvance ops dim
            { st with
              tab := tab3
              minA := minA1
              maxA := maxA1
              reduced := false
              snaps := st.snaps.set st.level (ops.snap tab3) } emptyP

/-- One iteration of the depth-first search loop of isl_tab_sample. -/
def tabStep (ops : TabOps) (dim : Nat) (st : LoopSt) : StepRes :=
  if st.init then tabStepInit ops dim st
  else
    tabAdvance ops dim
      { st with minA := st.minA.set st.level (st.minA.getD st.level 0 + 1) } false

/-- Exit value of the whole search loop. -/
inductive LoopOut
  | fail (ctx : Ctx)
  | found (st : LoopSt)
  | nopoint (ctx : Ctx)
deriving DecidableEq

/-- Run the search loop on explicit fuel; running out of fuel is mapped to
the error exit. -/
def tabLoop (ops : TabOps) (dim : Nat) : Nat → LoopSt → LoopOut
  | 0, st => LoopOut.fail st.ctx
  | fuel + 1, st =>
    match tabStep ops dim st with
    | StepRes.fail c => LoopOut.fail c
    | StepRes.found s => LoopOut.found s
    | StepRes.nopoint c => LoopOut.nopoint c
    | StepRes.next s => tabLoop ops dim fuel s

/-- isl_tab_sample: find an integer point in the set described by the
tableau.  Returns the sample (or the zero-length vector, or none for the
error outcome) together with the option block as the caller observes it
afterwards; the saved gbr policy is written back on every exit path of the
search loop. -/
def isl_tab_sample (ops : TabOps) (ctx : Ctx) (tab0 : TabState) (fuel : Nat) :
    Option IslVec × Ctx :=
  if tab0.emptyF then (some vec0, ctx)
  else
    let tabB : Option TabState :=
      if tab0.basis = [] then
        match initial_basis ops tab0 with
        | none => none
        | some b => some { tab0 with basis := b }
      else some tab0
    match tabB with
    | none => (none, ctx)
    | some tab =>
      if tab.basis.length ≠ tab.n_var + 1 then (none, ctx)
      else if colCount tab.basis ≠ tab.n_var + 1 then (none, ctx)
      else
        let gbr := ctx.gbr
        let dim := tab.n_var
        if tab.n_unbounded = tab.n_var then
          match ops.get_sample_value tab with
          | none => (none, ctx)
          | some s =>
            match isl_mat_vec_product tab.basis s with
            | none => (none, ctx)
            | some s1 =>
              (ops.mat_vec_inverse_product tab.basis (isl_vec_ceil s1), ctx)
        else
          match ops.extend_cons tab (dim + 1) with
          | none => (none, ctx)
          | some tab2 =>
            -- The source leaves the freshly allocated min, max and snapshot
            -- arrays uninitialized; every entry is written before it is
            -- read, so initializing them to zero is unobservable.
            let st0 : LoopSt :=
              ⟨ctx, tab2, 0, true, false,
               List.replicate dim 0, List.replicate dim 0, List.replicate dim 0⟩
            match tabLoop ops dim fuel st0 with
            | LoopOut.fail c => (none, { c with gbr := gbr })
            | LoopOut.nopoint c => (some vec0, { c with gbr := gbr })
            | LoopOut.found stF =>
              let cR := { stF.ctx with gbr := gbr }
              match ops.get_sample_value stF.tab with
              | none => (none, cR)
              | some s =>
                if stF.tab.n_unbounded ≠ 0 ∧ s.el.getD 0 0 ≠ 1 then
                  match isl_mat_vec_product stF.tab.basis s with
                  | none => (none, cR)
                  | some s1 =>
                    (ops.mat_vec_inverse_product stF.tab.basis (isl_vec_ceil s1), cR)
                else (some s, cR)

/-- External collaborators of the dispatcher level: the simplifier, equality
elimination, preimage under an affine map, dimension manipulation, the
finalizer and the alternative ILP backend, plus the tableau operations. -/
structure Ext where
  tab : TabOps
  simplify : IslBasicSet → Option IslBasicSet
  remove_equalities : IslBasicSet → Option (IslBasicSet × IslMat)
  preimage : IslBasicSet → IslMat → Option IslBasicSet
  remove_dims : IslBasicSet → Nat → Nat → Option IslBasicSet
  drop_dims : IslBasicSet → Nat → Nat → Option IslBasicSet
  finalize : IslBasicSet → Option IslBasicSet
  pip_backend : IslBasicSet → Option IslVec

/-- Modelled from the spec: the containment test behind the dispatcher's
cached-sample check ("a cached sample exists and still satisfies the set"):
the vector satisfies every equality with value zero and every inequality
with a non-negative value; a size mismatch is the error outcome. -/
def isl_basic_set_contains (bset : IslBasicSet) (v : IslVec) : Option Bool :=
  let total := 1 + total_dim bset
  if v.el.length ≠ total then none
  else
    some ((bset.eq.all (fun e => seqInner e v.el total == 0)) &&
          (bset.ineq.all (fun i => decide (0 ≤ seqInner i v.el total))))

/-- Modelled from the spec: the recession cone of a basic set is obtained by
zeroing the constant column of every constraint. -/
def isl_basic_set_recession_cone (b : IslBasicSet) : IslBasicSet :=
  { b with
    eq := b.eq.map (fun r => r.set 0 0)
    ineq := b.ineq.map (fun r => r.set 0 0)
    sample := none }

/-- The candidate value of the one-dimensional sampler: the negated constant
of the first inequality when its coefficient is one, otherwise the constant
itself. -/
def intervalCand (b : IslBasicSet) : Int :=
  let r := b.ineq.headD []
  if r.getD 1 0 = 1 then -(r.getD 0 0) else r.getD 0 0

/-- interval_sample: the one-dimensional sampler.  Simplify first; the empty
flag and the unconstrained case are fast paths; a single unit-coefficient
equality determines the point; otherwise the candidate derived from the
first inequality is checked against every other inequality by inner
product, and the first negative product proves the set empty. -/
def interval_sample (ext : Ext) (bset0 : IslBasicSet) : Option IslVec :=
  match ext.simplify bset0 with
  | none => none
  | some bset =>
    if fast_is_empty bset then some (empty_sample bset)
    else if bset.eq.length = 0 ∧ bset.ineq.length = 0 then some (zero_sample bset)
    else if 0 < bset.eq.length then
      if bset.eq.length = 1 ∧ bset.ineq.length = 0 then
        let e := bset.eq.headD []
        if e.getD 1 0 = 1 then some ⟨[1, -(e.getD 0 0)]⟩
        else if e.getD 1 0 = -1 then some ⟨[1, e.getD 0 0]⟩
        else none
      else none
    else
      if (bset.ineq.drop 1).any
          (fun r => decide (seqInner [1, intervalCand bset] r 2 < 0)) then
        some (empty_sample bset)
      else some ⟨[1, intervalCand bset]⟩

/-- sample_eq: remove the equalities, sample the reduced set with the given
recursion, and lift a non-empty sample back through the affine embedding. -/
def sample_eq (ext : Ext) (recurse : IslBasicSet → Option IslVec)
    (bset : IslBasicSet) : Option IslVec :=
  match ext.remove_equalities bset with
  | none => none
  | some (bset2, t) =>
    match recurse bset2 with
    | none => none
    | some s => if s.el.length = 0 then some s else isl_mat_vec_product t s

/-- plug_in: substitute the sample values for the leading coordinates by a
preimage under the block map [[1 0], [s 0], [0 I]]. -/
def plug_in (ext : Ext) (bset : IslBasicSet) (s : IslVec) : Option IslBasicSet :=
  let total := total_dim bset
  let ncol := 1 + total - (s.el.length - 1)
  let t : IslMat :=
    (s.el.map (fun v => v :: List.replicate (ncol - 1) 0)) ++
    (List.range (ncol - 1)).map
      (fun i => (List.range ncol).map (fun j => if j = 1 + i then 1 else 0))
  ext.preimage bset t

/-- rational_sample: any rational point of the set, read from a fresh
tableau. -/
def rational_sample (ext : Ext) (bset : IslBasicSet) : Option IslVec :=
  match ext.tab.tab_from_basic_set bset with
  | none => none
  | some tab => ext.tab.get_sample_value tab

/-- shift_cone: shifted copies of the cone constraints around the rational
point v, with the constant replaced by the negated ceiling of the inner
product and lowered by the sum of the negative coefficients, so that the
whole unit cube at any point of the result lies inside the affine cone
v + cone.  The concluding fast-finalize is an external. -/
def shift_cone (ext : Ext) (cone : IslBasicSet) (v : IslVec) : Option IslBasicSet :=
  if cone.eq.length ≠ 0 then none
  else
    let total := total_dim cone
    let rows := cone.ineq.map (fun a =>
      let coeffs := (a.drop 1).take total
      let b := seqInner coeffs (v.el.drop 1) total
      let c0 := -(cdivQ b (v.el.getD 0 0))
      (c0 + (coeffs.filter (fun x => decide (x < 0))).sum) :: coeffs)
    ext.finalize
      { nparam := cone.nparam
        dim := cone.dim
        n_div := 0
        eq := []
        ineq := rows
        empty_flag := false
        no_implicit := false
        sample := none }

/-- round_up_in_cone: an already integer rational point (denominator one) is
returned unchanged; otherwise the cone is transformed like the set, shifted
to the point, and the ceiling of any rational sample of the shifted cone is
the integer lift. -/
def round_up_in_cone (ext : Ext) (v : IslVec) (cone : IslBasicSet) (u : IslMat) :
    Option IslVec :=
  if v.el.length = 0 then none
  else if v.el.getD 0 0 = 1 then some v
  else
    let total := total_dim cone
    match ext.preimage cone u with
    | none => none
    | some cone1 =>
      match ext.remove_dims cone1 0 (total - (v.el.length - 1)) with
      | none => none
      | some cone2 =>
        match shift_cone ext cone2 v with
        | none => none
        | some cone3 =>
          match rational_sample ext cone3 with
          | none => none
          | some r => some (isl_vec_ceil r)

/-- vec_concat: concatenate two integer vectors sharing denominator one. -/
def vec_concat (v1 v2 : IslVec) : Option IslVec :=
  if v1.el.length = 0 ∨ v2.el.length = 0 then none
  else if v1.el.getD 0 0 ≠ 1 ∨ v2.el.getD 0 0 ≠ 1 then none
  else some ⟨v1.el ++ v2.el.drop 1⟩

/-- drop_constraints_involving: drop every inequality with a non-zero
coefficient among dimensions first .. first+n-1. -/
def drop_constraints_involving (bset : IslBasicSet) (first n : Nat) : IslBasicSet :=
  { bset with
    ineq := bset.ineq.filter (fun r => ((r.drop (1 + first)).take n).all (fun x => x == 0)) }

/-- isl_basic_set_sample_with_cone: split bounded from unbounded directions
with a Hermite basis of the cone equalities, sample the bounded projection,
plug the bounded values in, round the remaining rational point up inside
the cone, and transform the concatenation back. -/
def isl_basic_set_sample_with_cone (ext : Ext)
    (recSB : IslBasicSet → Option IslVec)
    (bset cone : IslBasicSet) : Option IslVec :=
  let total := total_dim cone
  let cone_dim := total - cone.eq.length
  let m := cone.eq.map (fun r => (r.drop 1).take total)
  match ext.tab.left_hermite m 0 with
  | none => none
  | some (_, u0, _) =>
    let u := isl_mat_lin_to_aff u0
    match ext.preimage bset u with
    | none => none
    | some bset1 =>
      match ext.drop_dims
          (drop_constraints_involving bset1 (total - cone_dim) cone_dim)
          (total - cone_dim) cone_dim with
      | none => none
      | some bounded1 =>
        match recSB bounded1 with
        | none => none
        | some s =>
          if s.el.length = 0 then some s
          else
            match plug_in ext bset1 s with
            | none => none
            | some bset2 =>
              match rational_sample ext bset2 with
              | none => none
              | some cs0 =>
                match round_up_in_cone ext cs0 cone u with
                | none => none
                | some cs1 =>
                  match vec_concat s cs1 with
                  | none => none
                  | some sc => isl_mat_vec_product u sc

/-- gbr_sample: compute the recession cone; with a non-trivial cone go
through the unbounded sampler, otherwise sample directly as bounded. -/
def gbr_sample (ext : Ext) (recSB : IslBasicSet → Option IslVec)
    (bset : IslBasicSet) : Option IslVec :=
  let dim := total_dim bset
  let cone := isl_basic_set_recession_cone bset
  if cone.eq.length < dim then isl_basic_set_sample_with_cone ext recSB bset cone
  else recSB bset

/-- swap_inequality on the inequality list. -/
def swapIneq (l : List (List Int)) (a b : Nat) : List (List Int) :=
  let ra := l.getD a []
  let rb := l.getD b []
  (l.set a rb).set b ra

/-- The first loop of skew_to_positive_orthant: move the inequalities whose
coefficient part has exactly one non-zero entry (multiples of unit rows) to
the front by swapping. -/
def hoistUnitRows (dim : Nat) (ineqs : List (List Int)) : List (List Int) :=
  ((List.range ineqs.length).foldl (fun st i =>
    let l := st.1
    let j := st.2
    let r := l.getD i []
    match firstNonZero ((r.drop 1).take dim) with
    | none => (l, j)
    | some pos =>
      if (firstNonZero ((r.drop (1 + pos + 1)).take (dim - pos - 1))).isSome then (l, j)
      else (swapIneq l i j, j + 1)) (ineqs, 0)).1

/-- The inner loop of independent_bounds: reduce the candidate direction
against the rows collected so far (kept ordered by the position of their
first non-zero entry) and find its insertion position; none when the
candidate reduces to zero. -/
def ibReduce : List (List Int) → Nat → List Int → Option (Nat × List Int)
  | [], i, cand =>
    match firstNonZero cand with
    | none => none
    | some _ => some (i, cand)
  | d :: rest, i, cand =>
    match firstNonZero cand with
    | none => none
    | some pos =>
      match firstNonZero d with
      | none => ibReduce rest (i + 1) cand
      | some posI =>
        if posI < pos then ibReduce rest (i + 1) cand
        else if pos < posI then some (i, cand)
        else ibReduce rest (i + 1) (seqElim cand d pos)

/-- The outer loop of independent_bounds over the remaining inequalities;
the state is the list of reduced directions and the collected bound rows. -/
def ibLoop (dim : Nat) : List (List Int) → List (List Int) × List (List Int) →
    List (List Int) × List (List Int)
  | [], st => st
  | r :: rest, (dirs, bnds) =>
    if dim ≤ dirs.length then (dirs, bnds)
    else
      match ibReduce dirs 0 ((r.drop 1).take dim) with
      | none => ibLoop dim rest (dirs, bnds)
      | some (i, cand) => ibLoop dim rest (dirs.insertIdx i cand, bnds ++ [r.take (1 + dim)])

/-- independent_bounds: a maximal linearly independent set of inequality
rows assembled by row reduction of the coefficient parts; row 0 of the
result is the homogenizing row. -/
def independent_bounds (bset : IslBasicSet) : IslMat :=
  let dim := bset.dim
  let row0 := 1 :: List.replicate dim 0
  match bset.ineq with
  | [] => [row0]
  | r0 :: rest =>
    let sF := ibLoop dim rest ([(r0.drop 1).take dim], [r0.take (1 + dim)])
    row0 :: sF.2

/-- skew_to_positive_orthant: hoist unit rows, pick independent bounds, turn
them into non-negativity constraints on the leading dimensions with a
left-Hermite transformation, and drop the lineality columns. -/
def isl_basic_set_skew_to_positive_orthant (ext : Ext) (bset : IslBasicSet) :
    Option (IslBasicSet × IslMat) :=
  if bset.nparam ≠ 0 then none
  else if bset.n_div ≠ 0 then none
  else if bset.eq.length ≠ 0 then none
  else
    let old_dim := bset.dim
    let bset1 := { bset with ineq := hoistUnitRows old_dim bset.ineq }
    let bounds := independent_bounds bset1
    let new_dim := bounds.length - 1
    match ext.tab.left_hermite bounds 1 with
    | none => none
    | some (_, u0, _) =>
      let u := isl_mat_drop_cols u0 (1 + new_dim) (old_dim - new_dim)
      match ext.preimage bset1 u with
      | none => none
      | some bset2 => some (bset2, u)

/-- pip_sample: skew into the positive orthant, call the alternative
backend, and transform a non-empty sample back with the skew matrix. -/
def pip_sample (ext : Ext) (bset : IslBasicSet) : Option IslVec :=
  match isl_basic_set_skew_to_positive_orthant ext bset with
  | none => none
  | some (bset1, t) =>
    match ext.pip_backend bset1 with
    | none => none
    | some s => if s.el.length ≠ 0 then isl_mat_vec_product t s else some s

/-- The tail of basic_set_sample after the cache check: clear the cache,
reduce equalities, fast zero- and one-dimensional paths, then the selected
backend. -/
def basic_set_sample_rest (ext : Ext) (ctx : Ctx)
    (recV recB recSB : IslBasicSet → Option IslVec)
    (bounded : Bool) (bset0 : IslBasicSet) : Option IslVec :=
  let bset := { bset0 with sample := none }
  if 0 < bset.eq.length then sample_eq ext (if bounded then recB else recV) bset
  else if bset.dim = 0 then some (zero_sample bset)
  else if bset.dim = 1 then interval_sample ext bset
  else
    match ctx.ilp_solver with
    | IlpMode.pip => pip_sample ext bset
    | IlpMode.gbr => if bounded then recSB bset else gbr_sample ext recSB bset

/-- basic_set_sample: the dispatcher.  The fast-emptiness test precedes the
no-parameter and no-div asserts; a cached sample of the right size that
still satisfies the set is returned directly. -/
def basic_set_sample_body (ext : Ext) (ctx : Ctx)
    (recV recB recSB : IslBasicSet → Option IslVec)
    (bounded : Bool) (bset : IslBasicSet) : Option IslVec :=
  if fast_is_empty bset then some (empty_sample bset)
  else if bset.nparam ≠ 0 then none
  else if bset.n_div ≠ 0 then none
  else
    match bset.sample with
    | some s =>
      if s.el.length = 1 + bset.dim then
        match isl_basic_set_contains bset s with
        | none => none
        | some true => some s
        | some false => basic_set_sample_rest ext ctx recV recB recSB bounded bset
      else basic_set_sample_rest ext ctx recV recB recSB bounded bset
    | none => basic_set_sample_rest ext ctx recV recB recSB bounded bset

/-- sample_bounded: fast paths, equality elimination, then a tableau with
the basic set tracked in it, implicit-equality detection unless the
NO_IMPLICIT flag is set, and the depth-first tableau sampler.  The
on-success write of the sample into the consumed argument's cache, and the
write of the EMPTY flag into it when the tableau comes up empty, are side
effects on shared storage that a pure embedding cannot observe; claim C5
takes the former as a hypothesis on the second call. -/
def sample_bounded_body (ext : Ext) (ctx : Ctx)
    (recSB : IslBasicSet → Option IslVec) (fuel : Nat)
    (bset : IslBasicSet) : Option IslVec :=
  if fast_is_empty bset then some (empty_sample bset)
  else
    let dim := total_dim bset
    if dim = 0 then some (zero_sample bset)
    else if dim = 1 then interval_sample ext bset
    else if 0 < bset.eq.length then sample_eq ext recSB bset
    else
      match ext.tab.tab_from_basic_set bset with
      | none => none
      | some tab =>
        if tab.emptyF then some vec0
        else
          match ext.tab.track_bset tab bset with
          | none => none
          | some tab2 =>
            match (if bset.no_implicit then some tab2
                   else ext.tab.detect_implicit_equalities tab2) with
            | none => none
            | some tab3 => (isl_tab_sample ext.tab ctx tab3 fuel).1

/-- The three recursion entry points of the sampler. -/
inductive SampleMode
  | dispatch (bounded : Bool)
  | boundedS
deriving DecidableEq

/-- The tied recursion of the dispatcher and the bounded sampler, on
explicit fuel bounding the equality-elimination recursion depth and the
iteration count of the tableau search. -/
def sampleGo (ext : Ext) (ctx : Ctx) : Nat → SampleMode → IslBasicSet → Option IslVec
  | 0, _, _ => none
  | fuel + 1, SampleMode.dispatch b, bset =>
    basic_set_sample_body ext ctx
      (sampleGo ext ctx fuel (SampleMode.dispatch false))
      (sampleGo ext ctx fuel (SampleMode.dispatch true))
      (sampleGo ext ctx fuel SampleMode.boundedS)
      b bset
  | fuel + 1, SampleMode.boundedS, bset =>
    sample_bounded_body ext ctx (sampleGo ext ctx fuel SampleMode.boundedS) fuel bset

/-- isl_basic_set_sample_vec: the public entry point. -/
def isl_basic_set_sample_vec (ext : Ext) (ctx : Ctx) (fuel : Nat)
    (bset : IslBasicSet) : Option IslVec :=
  sampleGo ext ctx fuel (SampleMode.dispatch false) bset

/-- isl_basic_set_sample_bounded: the entry point for callers asserting
boundedness. -/
def isl_basic_set_sample_bounded (ext : Ext) (ctx : Ctx) (fuel : Nat)
    (bset : IslBasicSet) : Option IslVec :=
  sampleGo ext ctx fuel (SampleMode.dispatch true) bset

/-- isl_basic_set_from_vec: the singleton basic set {v/d} described by one
equality per dimension, with the vector installed as the cached sample. -/
def isl_basic_set_from_vec (v : IslVec) : Option IslBasicSet :=
  if v.el.length = 0 then none
  else
    let dim := v.el.length - 1
    some
      { nparam := 0
        dim := dim
        n_div := 0
        eq := (List.range dim).map (fun k =>
          let i := dim - 1 - k
          (List.range (1 + dim)).map (fun j =>
            if j = 0 then -(v.el.getD (1 + i) 0)
            else if j = 1 + i then v.el.getD 0 0 else 0))
        ineq := []
        empty_flag := false
        no_implicit := false
        sample := some v }

/-- The option-block content carried out of one loop step. -/
def stepResCtx : StepRes → Ctx
  | StepRes.fail c => c
  | StepRes.found s => s.ctx
  | StepRes.nopoint c => c
  | StepRes.next s => s.ctx

/-- The option-block content carried out of the whole loop. -/
def loopOutCtx : LoopOut → Ctx
  | LoopOut.fail c => c
  | LoopOut.found s => s.ctx
  | LoopOut.nopoint c => c

/-- Equality of the option-block fields other than the gbr mode. -/
def ctxPres (a b : Ctx) : Prop :=
  a.gbr_only_first = b.gbr_only_first ∧ a.ilp_solver = b.ilp_solver

/-- A concrete instantiation of the tableau oracles, used to evaluate the
embedding on small inputs. -/
def opsW : TabOps :=
  { tab_min := fun t _ => (LpRes.ok, 0, t)
    sample_is_integer := fun _ => true
    get_sample_value := fun _ => some ⟨[1, 0]⟩
    add_valid_eq := fun t _ => t
    snap := fun _ => 0
    rollback := fun t _ => some t
    compute_reduced_basis := fun _ t => some t
    extend_cons := fun t _ => some t
    mat_vec_inverse_product := fun _ v => some v
    left_hermite := fun m _ => some (m, m, m)
    tab_from_basic_set := fun _ => none
    track_bset := fun t _ => some t
    detect_implicit_equalities := fun t => some t }

/-- A variant whose minimization values force a proper range and whose
sample is never already integer, so that basis reduction can fire. -/
def opsW2 : TabOps :=
  { opsW with
    tab_min := fun t _ => (LpRes.ok, -5, t)
    sample_is_integer := fun _ => false }

/-- A concrete instantiation of the dispatcher-level externals. -/
def extW : Ext :=
  { tab := opsW
    simplify := fun b => some b
    remove_equalities := fun b => some (b, [])
    preimage := fun b _ => some b
    remove_dims := fun b _ _ => some b
    drop_dims := fun b _ _ => some b
    finalize := fun b => some b
    pip_backend := fun _ => none }

/-- A concrete option block with the ONCE basis-reduction policy. -/
def ctxW : Ctx := ⟨GbrMode.once, false, IlpMode.gbr⟩

/-- A concrete option block with the ALWAYS basis-reduction policy. -/
def ctxW2 : Ctx := ⟨GbrMode.always, false, IlpMode.gbr⟩

/-- The zero-dimensional basic set carrying the single inequality -1 >= 0
with the EMPTY flag clear: it contains no integer point, yet no fast path of
the dispatcher inspects its constraints. -/
def bset0dim : IslBasicSet := ⟨0, 0, 0, [], [[-1]], false, false, none⟩

/-- A basic set with one parameter and the EMPTY flag set. -/
def bsetParamFlag : IslBasicSet := ⟨1, 0, 0, [], [], true, false, none⟩

/-- A basic set with one parameter and the EMPTY flag clear. -/
def bsetParam : IslBasicSet := ⟨1, 0, 0, [], [], false, false, none⟩

/-- The interval 3 <= x <= 5 as a one-dimensional basic set. -/
def bsetInterval : IslBasicSet := ⟨0, 1, 0, [], [[-3, 1], [5, -1]], false, false, none⟩

/-- The interval set with the point (1, 3) installed as its cached sample. -/
def bsetCached : IslBasicSet := { bsetInterval with sample := some ⟨[1, 3]⟩ }

/-- A one-variable concrete tableau state with the identity basis. -/
def tabW : TabState := ⟨false, 1, 1, 0, [], none, [[1, 0], [0, 1]], 0, 0⟩

/-- A two-variable concrete tableau state with the identity basis. -/
def tabW2 : TabState := ⟨false, 2, 2, 0, [], none, [[1, 0, 0], [0, 1, 0], [0, 0, 1]], 0, 0⟩

/-- A non-init loop state about to try the next candidate at level 0. -/
def stA : LoopSt := ⟨ctxW, tabW2, 0, false, false, [0, 0], [5, 5], [0, 0]⟩

/-- The state the loop reaches from stA: the candidate advanced by one, the
value pinned, and the search one level deeper. -/
def stA' : LoopSt := ⟨ctxW, tabW2, 1, true, false, [1, 0], [5, 5], [0, 0]⟩

/-- An init-mode loop state at level 0. -/
def stB : LoopSt := ⟨ctxW, tabW2, 0, true, false, [7, 7], [9, 9], [0, 0]⟩

/-- The state the loop reaches from stB under opsW: the sample is already
integer, so the search stops with the computed minimum recorded. -/
def stB' : LoopSt := ⟨ctxW, tabW2, 0, true, false, [0, 7], [9, 9], [0, 0]⟩

/-- An init-mode loop state under the ALWAYS policy. -/
def stC : LoopSt := ⟨ctxW2, tabW2, 0, true, false, [7, 7], [9, 9], [0, 0]⟩

/-- The state the loop reaches from stC under opsW2: basis reduction fired
once at level 0. -/
def stC' : LoopSt := ⟨ctxW2, tabW2, 0, true, true, [-5, 7], [5, 9], [0, 0]⟩

/-- The state stC with the reduced flag already set. -/
def stD : LoopSt := ⟨ctxW2, tabW2, 0, true, true, [7, 7], [9, 9], [0, 0]⟩

/-! ## Theorems -/

theorem bset0dim_no_point : ∀ x : List Int, ¬ satisfiesBset bset0dim x := by
  intro x h
  have hm : [(-1 : Int)] ∈ bset0dim.ineq := by simp [bset0dim]
  have hv : seqInner [(-1 : Int)] (1 :: x) (1 + total_dim bset0dim) = -1 := rfl
  have := h.2 [(-1 : Int)] hm
  rw [hv] at this
  omega

/-- Claim C1 (code bug): the spec demands that the top-level sampler return a
zero-length vector exactly when the set has no integer point.  On the
zero-dimensional basic set bset0dim, whose inequality -1 >= 0 excludes every
point, every run of the dispatcher returns the non-zero-length vector (1):
the dim == 0 fast path builds the zero sample without consulting the
constraints, for any behaviour of the external collaborators. -/
theorem sample_vec_zero_dim_divergence :
    (∀ (ext : Ext) (ctx : Ctx) (fuel : Nat),
      isl_basic_set_sample_vec ext ctx (fuel + 1) bset0dim = some ⟨[1]⟩) ∧
    (∀ x : List Int, ¬ satisfiesBset bset0dim x) :=
  ⟨fun _ _ _ => rfl, bset0dim_no_point⟩

/-- Claim C2 (code bug): the spec demands that every returned sample of
positive length satisfy every constraint.  On bset0dim the dispatcher
returns the length-one vector (1) with denominator one, yet the inner
product of the inequality (-1) with it is negative. -/
theorem sample_vec_constraint_divergence :
    (∀ (ext : Ext) (ctx : Ctx) (fuel : Nat),
      isl_basic_set_sample_vec ext ctx (fuel + 1) bset0dim = some ⟨[1]⟩) ∧
    (⟨[1]⟩ : IslVec).el.getD 0 0 = 1 ∧
    ∃ r ∈ bset0dim.ineq, seqInner r (⟨[1]⟩ : IslVec).el (1 + total_dim bset0dim) < 0 :=
  ⟨fun _ _ _ => rfl, rfl, ⟨[(-1 : Int)], by decide, by decide⟩⟩

/-- Claim C3, counterexample: a basic set with a parameter but with the
EMPTY flag set does not fail with InvalidInput; the fast-emptiness test
precedes the precondition asserts and the dispatcher returns the zero-length
empty-set witness. -/
theorem sample_vec_invalid_cex :
    isl_basic_set_sample_vec extW ctxW 5 bsetParamFlag = some vec0 ∧
    bsetParamFlag.nparam ≠ 0 :=
  ⟨rfl, by decide⟩

/-- Claim C3, amended: for every basic set whose EMPTY flag is clear and
whose parameter or div count is non-zero, the dispatcher fails with
InvalidInput (a null result), whatever the externals do. -/
theorem sample_vec_invalid_input :
    ∀ (ext : Ext) (ctx : Ctx) (fuel : Nat) (bset : IslBasicSet),
    fast_is_empty bset = false → (bset.nparam ≠ 0 ∨ bset.n_div ≠ 0) →
    isl_basic_set_sample_vec ext ctx (fuel + 1) bset = none := by
  intro ext ctx fuel bset h1 h2
  unfold isl_basic_set_sample_vec
  simp only [sampleGo]
  rcases h2 with h | h
  · simp [basic_set_sample_body, h1, h]
  · by_cases hp : bset.nparam ≠ 0
    · simp [basic_set_sample_body, h1, hp]
    · simp [basic_set_sample_body, h1, hp, h]

theorem sample_vec_invalid_input_witness :
    fast_is_empty bsetParam = false ∧ bsetParam.nparam ≠ 0 ∧
    isl_basic_set_sample_vec extW ctxW 3 bsetParam = none :=
  ⟨rfl, by decide, sample_vec_invalid_input extW ctxW 2 bsetParam rfl (Or.inl (by decide))⟩

/-- Claim C5: a basic set whose cache holds a sample of the right size that
still satisfies the set (the state in which a successful first call leaves
its argument) makes the dispatcher return exactly the cached sample.  The
result is the same for every behaviour of the external collaborators, so no
tableau is built and the search is not re-run. -/
theorem sample_vec_cached :
    ∀ (ext : Ext) (ctx : Ctx) (fuel : Nat) (bset : IslBasicSet) (s : IslVec),
    fast_is_empty bset = false → bset.nparam = 0 → bset.n_div = 0 →
    bset.sample = some s → s.el.length = 1 + bset.dim →
    isl_basic_set_contains bset s = some true →
    isl_basic_set_sample_vec ext ctx (fuel + 1) bset = some s := by
  intro ext ctx fuel bset s h1 h2 h3 h4 h5 h6
  unfold isl_basic_set_sample_vec
  simp only [sampleGo]
  simp [basic_set_sample_body, h1, h2, h3, h4, h5, h6]

theorem sample_vec_cached_witness :
    isl_basic_set_contains bsetCached ⟨[1, 3]⟩ = some true ∧
    isl_basic_set_sample_vec extW ctxW 9 bsetCached = some ⟨[1, 3]⟩ :=
  ⟨by decide, sample_vec_cached extW ctxW 8 bsetCached ⟨[1, 3]⟩ rfl rfl rfl rfl rfl (by decide)⟩

/-- Claim C6: for every non-zero-length vector that is already integer
(denominator one, the library's integrality convention), round_up_in_cone
returns it unchanged, for every cone, matrix and external behaviour: no
preimage, shift or ceiling is applied. -/
theorem round_up_integer_identity :
    ∀ (ext : Ext) (v : IslVec) (cone : IslBasicSet) (u : IslMat),
    v.el.length ≠ 0 → v.el.getD 0 0 = 1 →
    round_up_in_cone ext v cone u = some v := by
  intro ext v cone u h1 h2
  unfold round_up_in_cone
  rw [if_neg h1, if_pos h2]

theorem round_up_integer_identity_witness :
    round_up_in_cone extW ⟨[1, 4, 5]⟩ bsetInterval [] = some ⟨[1, 4, 5]⟩ :=
  round_up_integer_identity extW ⟨[1, 4, 5]⟩ bsetInterval [] (by decide) rfl

/-- Claim C7: on a one-dimensional basic set that simplifies to a system
with no equalities, at least one inequality and a clear EMPTY flag, the
interval sampler returns the zero-length vector exactly when the inner
product of some later inequality with the candidate built from the first
inequality's constant is negative; otherwise it returns that candidate. -/
theorem interval_sample_ineq :
    ∀ (ext : Ext) (bset0 bset : IslBasicSet),
    ext.simplify bset0 = some bset →
    fast_is_empty bset = false → bset.eq = [] → 0 < bset.ineq.length →
    (intervalCand bset = (if (bset.ineq.headD []).getD 1 0 = 1
        then -((bset.ineq.headD []).getD 0 0) else (bset.ineq.headD []).getD 0 0)) ∧
    ((interval_sample ext bset0 = some vec0 ↔
        ∃ r ∈ bset.ineq.drop 1, seqInner [1, intervalCand bset] r 2 < 0) ∧
     (interval_sample ext bset0 = some vec0 ∨
        interval_sample ext bset0 = some ⟨[1, intervalCand bset]⟩)) := by
  intro ext bset0 bset hs hf he hi
  refine ⟨rfl, ?_⟩
  have hrun : interval_sample ext bset0 =
      (if (bset.ineq.drop 1).any
          (fun r => decide (seqInner [1, intervalCand bset] r 2 < 0)) then
        some (empty_sample bset)
      else some ⟨[1, intervalCand bset]⟩) := by
    unfold interval_sample
    rw [hs]
    simp [hf, he, Nat.pos_iff_ne_zero.mp hi]
  by_cases ha : (bset.ineq.drop 1).any
      (fun r => decide (seqInner [1, intervalCand bset] r 2 < 0)) = true
  · rw [hrun, if_pos ha]
    constructor
    · constructor
      · intro _
        rcases List.any_eq_true.mp ha with ⟨r, hr, hp⟩
        exact ⟨r, hr, of_decide_eq_true hp⟩
      · intro _
        rfl
    · exact Or.inl rfl
  · rw [hrun, if_neg ha]
    constructor
    · constructor
      · intro hcontra
        exfalso
        have : ([1, intervalCand bset] : List Int) = [] := by
          simp [vec0, IslVec.mk.injEq] at hcontra
        simp at this
      · intro ⟨r, hr, hp⟩
        exact absurd (List.any_eq_true.mpr ⟨r, hr, decide_eq_true hp⟩) ha
    · exact Or.inr rfl

theorem interval_sample_ineq_witness :
    interval_sample extW bsetInterval = some ⟨[1, 3]⟩ := by
  have h := interval_sample_ineq extW bsetInterval bsetInterval rfl rfl rfl (by decide)
  rcases h.2.2 with h2 | h2
  · exact absurd (h.2.1.mp h2) (by decide)
  · have hc : intervalCand bsetInterval = 3 := by decide
    rw [hc] at h2
    exact h2

/-- Claim C9: for a fixed oracle instantiation, option block and fuel, two
runs of isl_tab_sample on equal input tableaus return the same result: the
embedded search is a function of its inputs, with no hidden source of
nondeterminism. -/
theorem tab_sample_deterministic :
    ∀ (ops : TabOps) (ctx : Ctx) (t1 t2 : TabState) (fuel : Nat),
    t1 = t2 → isl_tab_sample ops ctx t1 fuel = isl_tab_sample ops ctx t2 fuel := by
  intro ops ctx t1 t2 fuel h
  rw [h]

theorem tab_sample_deterministic_witness :
    isl_tab_sample opsW ctxW tabW 4 = isl_tab_sample opsW ctxW tabW 4 :=
  tab_sample_deterministic opsW ctxW tabW tabW 4 rfl

theorem tabAdvance_ctx (ops : TabOps) (dim : Nat) (st : LoopSt) (e : Bool) :
    stepResCtx (tabAdvance ops dim st e) = st.ctx := by
  unfold tabAdvance
  split
  · split
    · rfl
    · split <;> rfl
  · dsimp only
    split <;> rfl

theorem tabStepInit_ctx (ops : TabOps) (dim : Nat) (st : LoopSt) :
    ctxPres (stepResCtx (tabStepInit ops dim st)) st.ctx := by
  unfold tabStepInit
  dsimp only
  split
  · exact ⟨rfl, rfl⟩
  · split
    · exact ⟨rfl, rfl⟩
    · split
      · exact ⟨rfl, rfl⟩
      · split
        · exact ⟨rfl, rfl⟩
        · split
          · split
            · constructor <;> (dsimp only [stepResCtx]; split <;> rfl)
            · split
              · constructor <;> (dsimp only [stepResCtx]; split <;> rfl)
              · constructor <;> (dsimp only [stepResCtx]; split <;> rfl)
          · rw [tabAdvance_ctx]
            exact ⟨rfl, rfl⟩

theorem tabStep_ctx (ops : TabOps) (dim : Nat) (st : LoopSt) :
    ctxPres (stepResCtx (tabStep ops dim st)) st.ctx := by
  unfold tabStep
  split
  · exact tabStepInit_ctx ops dim st
  · rw [tabAdvance_ctx]
    exact ⟨rfl, rfl⟩

theorem tabLoop_ctx (ops : TabOps) (dim : Nat) :
    ∀ (fuel : Nat) (st : LoopSt), ctxPres (loopOutCtx (tabLoop ops dim fuel st)) st.ctx := by
  intro fuel
  induction fuel with
  | zero => intro st; exact ⟨rfl, rfl⟩
  | succ n ih =>
    intro st
    have hs := tabStep_ctx ops dim st
    simp only [tabLoop]
    cases h : tabStep ops dim st with
    | fail c => rw [h] at hs; exact hs
    | found s => rw [h] at hs; exact hs
    | nopoint c => rw [h] at hs; exact hs
    | next s =>
      rw [h] at hs
      have ht := ih s
      exact ⟨ht.1.trans hs.1, ht.2.trans hs.2⟩

theorem ctx_restore_eq (c b : Ctx) (h : ctxPres c b) : { c with gbr := b.gbr } = b := by
  cases c
  cases b
  obtain ⟨h1, h2⟩ := h
  simp only at h1 h2
  subst h1
  subst h2
  rfl

/-- Claim C8: isl_tab_sample saves the gbr policy on entry and the caller
observes the whole option block unchanged on every exit path, error exits
and fuel exhaustion included, even though a ONCE policy is flipped to NEVER
inside the search when basis reduction first fires, and gbr_only_first is
temporarily overwritten around the reduction call. -/
theorem tab_sample_restores_ctx :
    ∀ (ops : TabOps) (ctx : Ctx) (tab : TabState) (fuel : Nat),
    (isl_tab_sample ops ctx tab fuel).2 = ctx := by
  intro ops ctx tab fuel
  unfold isl_tab_sample
  dsimp only
  split
  · rfl
  · split
    · rfl
    · rename_i tab1 hB
      split
      · rfl
      · split
        · rfl
        · split
          · split
            · rfl
            · split <;> rfl
          · split
            · rfl
            · rename_i tab2 hE
              split
              · rename_i c hL
                have hp := tabLoop_ctx ops tab1.n_var fuel
                  ⟨ctx, tab2, 0, true, false, List.replicate tab1.n_var 0,
                   List.replicate tab1.n_var 0, List.replicate tab1.n_var 0⟩
                rw [hL] at hp
                exact ctx_restore_eq c ctx hp
              · rename_i c hL
                have hp := tabLoop_ctx ops tab1.n_var fuel
                  ⟨ctx, tab2, 0, true, false, List.replicate tab1.n_var 0,
                   List.replicate tab1.n_var 0, List.replicate tab1.n_var 0⟩
                rw [hL] at hp
                exact ctx_restore_eq c ctx hp
              · rename_i stF hL
                have hp := tabLoop_ctx ops tab1.n_var fuel
                  ⟨ctx, tab2, 0, true, false, List.replicate tab1.n_var 0,
                   List.replicate tab1.n_var 0, List.replicate tab1.n_var 0⟩
                rw [hL] at hp
                split
                · exact ctx_restore_eq stF.ctx ctx hp
                · split
                  · split <;> exact ctx_restore_eq stF.ctx ctx hp
                  · exact ctx_restore_eq stF.ctx ctx hp

theorem tabAdvance_keeps (ops : TabOps) (dim : Nat) (st : LoopSt) (e : Bool) (st' : LoopSt)
    (hs : tabAdvance ops dim st e = StepRes.next st' ∨
          tabAdvance ops dim st e = StepRes.found st') :
    st'.minA = st.minA ∧ st'.maxA = st.maxA := by
  unfold tabAdvance at hs
  dsimp only at hs
  split at hs
  · split at hs
    · rcases hs with hs | hs <;> simp at hs
    · split at hs
      · rcases hs with hs | hs <;> simp at hs
      · rcases hs with hs | hs
        · injection hs with h2
          subst h2
          exact ⟨rfl, rfl⟩
        · simp at hs
  · split at hs
    · rcases hs with hs | hs
      · injection hs with h2
        subst h2
        exact ⟨rfl, rfl⟩
      · simp at hs
    · rcases hs with hs | hs
      · simp at hs
      · injection hs with h2
        subst h2
        exact ⟨rfl, rfl⟩

theorem tabAdvance_level (ops : TabOps) (dim : Nat) (s : LoopSt) (e : Bool) (st' : LoopSt)
    (hs : tabAdvance ops dim s e = StepRes.next st') : st'.level ≠ s.level := by
  unfold tabAdvance at hs
  dsimp only at hs
  split at hs
  · split at hs
    · simp at hs
    · rename_i hne
      split at hs
      · simp at hs
      · injection hs with h2
        subst h2
        dsimp only
        omega
  · split at hs
    · injection hs with h2
      subst h2
      dsimp only
      omega
    · simp at hs

theorem tabStepInit_minA (ops : TabOps) (dim : Nat) (st st' : LoopSt)
    (hs : tabStepInit ops dim st = StepRes.next st' ∨
          tabStepInit ops dim st = StepRes.found st') :
    st'.minA = st.minA.set st.level
      (ops.tab_min st.tab (getRow st.tab.basis (1 + st.level))).2.1 := by
  unfold tabStepInit at hs
  dsimp only at hs
  split at hs
  · rcases hs with hs | hs <;> simp at hs
  · split at hs
    · rcases hs with hs | hs
      · simp at hs
      · injection hs with h2
        subst h2
        rfl
    · split at hs
      · rcases hs with hs | hs <;> simp at hs
      · split at hs
        · rcases hs with hs | hs
          · simp at hs
          · injection hs with h2
            subst h2
            rfl
        · split at hs
          · split at hs
            · rcases hs with hs | hs <;> simp at hs
            · split at hs
              · rcases hs with hs | hs <;> simp at hs
              · rcases hs with hs | hs
                · injection hs with h2
                  subst h2
                  rfl
                · simp at hs
          · exact (tabAdvance_keeps ops dim _ _ st' hs).1

theorem tabStep_reduced_indep (ops : TabOps) (f : Ctx → TabState → Option TabState)
    (dim : Nat) (st : LoopSt) (h : st.reduced = true) :
    tabStep { ops with compute_reduced_basis := f } dim st = tabStep ops dim st := by
  unfold tabStep
  by_cases hi : st.init = true
  · rw [if_pos hi, if_pos hi]
    unfold tabStepInit
    dsimp only
    split
    · rfl
    · split
      · rfl
      · split
        · rfl
        · split
          · rfl
          · split
            · rename_i hcond
              exact absurd hcond.2.1 (by simp [h])
            · rfl
  · rw [if_neg hi, if_neg hi]
    rfl

theorem tabStep_samelevel (ops : TabOps) (dim : Nat) (st st' : LoopSt)
    (hs : tabStep ops dim st = StepRes.next st') (hl : st'.level = st.level) :
    st.reduced = false ∧ st'.reduced = true ∧ st.init = true ∧ st'.init = true := by
  unfold tabStep at hs
  split at hs
  · rename_i hi
    unfold tabStepInit at hs
    dsimp only at hs
    split at hs
    · simp at hs
    · split at hs
      · simp at hs
      · split at hs
        · simp at hs
        · split at hs
          · simp at hs
          · split at hs
            · rename_i hcond
              split at hs
              · simp at hs
              · split at hs
                · simp at hs
                · injection hs with h2
                  subst h2
                  exact ⟨hcond.2.1, rfl, hi, hi⟩
            · have hx := tabAdvance_level ops dim _ _ st' hs
              exact absurd hl hx
  · have hx := tabAdvance_level ops dim _ false st' hs
    exact absurd hl hx

/-- Claim C4: the candidate values of the depth-first search are enumerated
from the computed minimum upward by exactly one at a time, and basis
reduction fires at most once per level per descent.  Conjunct one: a
non-init step changes only the current level's candidate, by adding one.
Conjunct two: an init step installs the value delivered by the minimization
oracle as the first candidate.  Conjunct three: the only loop transition
that stays at the same level is the basis-reduction firing; it requires the
reduced flag to be clear and sets it, so a second firing cannot happen at
that level before the flag is cleared again at the snapshot that opens the
candidate scan.  Conjunct four: with the reduced flag set, the step does not
even consult the basis-reduction oracle - replacing it changes nothing. -/
theorem tab_sample_enumeration :
    (∀ (ops : TabOps) (dim : Nat) (st st' : LoopSt), st.init = false →
      (tabStep ops dim st = StepRes.next st' ∨ tabStep ops dim st = StepRes.found st') →
      st'.minA = st.minA.set st.level (st.minA.getD st.level 0 + 1) ∧
      st'.maxA = st.maxA) ∧
    (∀ (ops : TabOps) (dim : Nat) (st st' : LoopSt), st.init = true →
      (tabStep ops dim st = StepRes.next st' ∨ tabStep ops dim st = StepRes.found st') →
      st'.minA = st.minA.set st.level
        (ops.tab_min st.tab (getRow st.tab.basis (1 + st.level))).2.1) ∧
    (∀ (ops : TabOps) (dim : Nat) (st st' : LoopSt),
      tabStep ops dim st = StepRes.next st' → st'.level = st.level →
      st.reduced = false ∧ st'.reduced = true ∧ st.init = true ∧ st'.init = true) ∧
    (∀ (ops : TabOps) (f : Ctx → TabState → Option TabState) (dim : Nat) (st : LoopSt),
      st.reduced = true →
      tabStep { ops with compute_reduced_basis := f } dim st = tabStep ops dim st) := by
  refine ⟨?_, ?_, ?_, ?_⟩
  · intro ops dim st st' h hs
    unfold tabStep at hs
    rw [if_neg (by simp [h])] at hs
    exact tabAdvance_keeps ops dim _ false st' hs
  · intro ops dim st st' h hs
    unfold tabStep at hs
    rw [if_pos h] at hs
    exact tabStepInit_minA ops dim st st' hs
  · intro ops dim st st' hs hl
    exact tabStep_samelevel ops dim st st' hs hl
  · intro ops f dim st h
    exact tabStep_reduced_indep ops f dim st h

theorem tab_sample_enumeration_witness :
    (stA'.minA = stA.minA.set stA.level (stA.minA.getD stA.level 0 + 1) ∧
     stA'.maxA = stA.maxA) ∧
    (stB'.minA = stB.minA.set stB.level
      (opsW.tab_min stB.tab (getRow stB.tab.basis (1 + stB.level))).2.1) ∧
    (stC.reduced = false ∧ stC'.reduced = true ∧ stC.init = true ∧ stC'.init = true) ∧
    (tabStep { opsW2 with compute_reduced_basis := fun _ _ => none } 2 stD =
      tabStep opsW2 2 stD) := by
  refine ⟨?_, ?_, ?_, ?_⟩
  · exact tab_sample_enumeration.1 opsW 2 stA stA' rfl (Or.inl (by decide))
  · exact tab_sample_enumeration.2.1 opsW 2 stB stB' rfl (Or.inr (by decide))
  · exact tab_sample_enumeration.2.2.1 opsW2 2 stC stC' (by decide) rfl
  · exact tab_sample_enumeration.2.2.2 opsW2 (fun _ _ => none) 2 stD rfl

theorem mapRange_getD {α : Type} (f : Nat → α) (n k : Nat) (d : α) (hk : k < n) :
    ((List.range n).map f).getD k d = f k := by
  rw [List.getD_eq_getElem?_getD, List.getElem?_map, List.getElem?_range hk]
  rfl

/-- Claim C10: isl_basic_set_from_vec on a vector of length 1 + n builds an
n-dimensional basic set with no inequalities, exactly n equalities, one per
dimension of the form denominator times coordinate i minus element 1 + i
(the singleton set of the vector divided by its denominator), and installs
the vector as the cached sample. -/
theorem from_vec_singleton :
    ∀ (v : IslVec) (n : Nat), v.el.length = n + 1 →
    ∃ b, isl_basic_set_from_vec v = some b ∧
      b.nparam = 0 ∧ b.n_div = 0 ∧ b.dim = n ∧
      b.ineq = [] ∧ b.sample = some v ∧ b.eq.length = n ∧
      (∀ i, i < n →
        b.eq.getD (n - 1 - i) [] = (List.range (1 + n)).map (fun j =>
          if j = 0 then -(v.el.getD (1 + i) 0)
          else if j = 1 + i then v.el.getD 0 0 else 0)) := by
  intro v n h
  have h0 : v.el.length ≠ 0 := by omega
  have hd : v.el.length - 1 = n := by omega
  refine ⟨{ nparam := 0
            dim := n
            n_div := 0
            eq := (List.range n).map (fun k =>
              (List.range (1 + n)).map (fun j =>
                if j = 0 then -(v.el.getD (1 + (n - 1 - k)) 0)
                else if j = 1 + (n - 1 - k) then v.el.getD 0 0 else 0))
            ineq := []
            empty_flag := false
            no_implicit := false
            sample := some v }, ?_, rfl, rfl, rfl, rfl, rfl, ?_, ?_⟩
  · unfold isl_basic_set_from_vec
    rw [if_neg h0]
    dsimp only
    rw [hd]
  · simp
  · intro i hi
    rw [mapRange_getD _ n (n - 1 - i) _ (by omega)]
    have he : n - 1 - (n - 1 - i) = i := by omega
    simp only [he]

theorem from_vec_singleton_witness :
    (⟨[2, 3, 5]⟩ : IslVec).el.length = 2 + 1 ∧
    ∃ b, isl_basic_set_from_vec ⟨[2, 3, 5]⟩ = some b ∧
      b.eq.length = 2 ∧ b.sample = some ⟨[2, 3, 5]⟩ := by
  refine ⟨rfl, ?_⟩
  obtain ⟨b, h1, _, _, _, _, h6, h7, _⟩ := from_vec_singleton ⟨[2, 3, 5]⟩ 2 rfl
  exact ⟨b, h1, h7, h6⟩

end IslSample
